import Mathlib

/-!
Verification development for the evaluation core of the tera template
engine: the dynamically-typed value model (`src/value.rs`), the stack-frame
variable-resolution protocol (`src/renderer/stack_frame.rs`), the sort
engine (`src/sort_utils.rs`), the rendering context (`src/context.rs`), the
array filters (`src/builtins/filters/array.rs`) and the built-in testers
(`src/builtins/testers.rs`).

Machine integers are modelled as `Int`/`Nat` with explicit two's-complement
casts where the source performs `as` casts.  `f64` is modelled by `F64`
below: a finite rational payload or one of the IEEE specials.  Rounding of
floating-point results is not modelled (all float computations appearing in
the claims are exact); the properties proved here never depend on rounding.
-/

/-! ### Machine-integer bounds (i64 / u64 / usize) -/

/-- Smallest `i64` value. -/
def i64Min : Int := -(2 ^ 63)

/-- Largest `i64` value. -/
def i64Max : Int := 2 ^ 63 - 1

/-- Number of distinct `u64`/`usize` values. -/
def u64Card : Nat := 2 ^ 64

/-- Two's-complement reinterpretation of a `u64` as an `i64`, modelling the
Rust cast `x as i64`. -/
def u64AsI64 (n : Nat) : Int :=
  ((n : Int) + 2 ^ 63) % 2 ^ 64 - 2 ^ 63

/-- Wrapping subtraction on `usize`, modelling Rust release-mode overflow
semantics of `a - b` on unsigned integers. -/
def usizeWrapSub (a b : Nat) : Nat :=
  (a + u64Card - b % u64Card) % u64Card

/-! ### Model of `f64`

`F64.fin q` is a finite double with exact value `q`; `nan`, `inf`, `ninf`
are the IEEE specials.  Signed zero is collapsed to `fin 0` (the source
never distinguishes `0.0` from `-0.0`).  Arithmetic on finite values is
exact rational arithmetic (rounding unmodelled). -/

inductive F64 where
  | fin (q : ℚ)
  | nan
  | inf
  | ninf
deriving DecidableEq

/-- `true` iff the value is neither NaN nor an infinity, modelling
`f64::is_finite`. -/
def F64.isFinite : F64 → Bool
  | .fin _ => true
  | _ => false

/-- IEEE `==` on doubles: NaN compares unequal to everything (including
itself); infinities compare equal to themselves. -/
def F64.beq : F64 → F64 → Bool
  | .fin a, .fin b => a == b
  | .inf, .inf => true
  | .ninf, .ninf => true
  | _, _ => false

/-- IEEE `<` on doubles: any comparison involving NaN is false. -/
def F64.blt : F64 → F64 → Bool
  | .fin a, .fin b => a < b
  | .fin _, .inf => true
  | .ninf, .fin _ => true
  | .ninf, .inf => true
  | _, _ => false

/-- IEEE `<=` on doubles. -/
def F64.ble (a b : F64) : Bool := a.blt b || a.beq b

/-- Exact conversion of an integer to a double (`x as f64`; rounding for
magnitudes above `2^53` is not modelled). -/
def F64.ofInt (i : Int) : F64 := .fin i

/-- Exact conversion of a `u64`/`usize` to a double. -/
def F64.ofNat (n : Nat) : F64 := .fin n

/-- Truncation of a rational toward zero. -/
def ratTrunc (q : ℚ) : Int := if 0 ≤ q then ⌊q⌋ else ⌈q⌉

/-- IEEE division on the `F64` model.  On finite operands the quotient is
the exact rational quotient (rounding unmodelled). -/
def F64.div : F64 → F64 → F64
  | .fin a, .fin b =>
      if b = 0 then (if a = 0 then .nan else if 0 < a then .inf else .ninf)
      else .fin (a / b)
  | .fin _, .inf => .fin 0
  | .fin _, .ninf => .fin 0
  | .inf, .fin b => if 0 ≤ b then .inf else .ninf
  | .ninf, .fin b => if 0 ≤ b then .ninf else .inf
  | _, _ => .nan

/-- IEEE remainder with the sign of the dividend, modelling Rust `%` on
`f64` (`x - y * trunc(x / y)` on finite operands). -/
def F64.rem : F64 → F64 → F64
  | .fin a, .fin b => if b = 0 then .nan else .fin (a - b * (ratTrunc (a / b) : ℚ))
  | .fin a, .inf => .fin a
  | .fin a, .ninf => .fin a
  | _, _ => .nan

/-- IEEE multiplication on the `F64` model (finite case exact). -/
def F64.mul : F64 → F64 → F64
  | .fin a, .fin b => .fin (a * b)
  | _, _ => .nan

/-- IEEE addition on the `F64` model (finite case exact; special cases
involving infinities are not needed by the embedded code and collapse to
NaN). -/
def F64.add : F64 → F64 → F64
  | .fin a, .fin b => .fin (a + b)
  | _, _ => .nan

/-- IEEE subtraction on the `F64` model (finite case exact). -/
def F64.sub : F64 → F64 → F64
  | .fin a, .fin b => .fin (a - b)
  | _, _ => .nan

/-- Rust `{}` display of a non-finite double; the display of finite doubles
is approximated by the rational's display (only non-finite values are ever
displayed by the embedded code, in `OrderedF64::new`). -/
def F64.display : F64 → String
  | .fin q => toString q
  | .nan => "NaN"
  | .inf => "inf"
  | .ninf => "-inf"

/-! ### `Number` (src/value.rs, lines 5-80)

A numeric super-type unifying `i64` / `u64` / `f64`.  The arithmetic
operations mirror the `arithmetic_operation!` expansion; for the integer
cases Rust `/` and `%` abort (panic) on division by zero and on the
overflowing case `i64::MIN / -1`, so the model returns an `Option` where
`none` models the panic. -/

inductive Number where
  | int (i : Int)
  | uint (n : Nat)
  | float (f : F64)
deriving DecidableEq

/-- `logical_operation!(eq, ==)` from src/value.rs: cross-representation
numeric equality (int/uint pairs compare as `i128`, mixed float pairs
compare as `f64`). -/
def Number.eqv : Number → Number → Bool
  | .int x, .int y => x == y
  | .int x, .uint y => x == (y : Int)
  | .int x, .float y => (F64.ofInt x).beq y
  | .uint x, .int y => (x : Int) == y
  | .uint x, .uint y => x == y
  | .uint x, .float y => (F64.ofNat x).beq y
  | .float x, .int y => x.beq (F64.ofInt y)
  | .float x, .uint y => x.beq (F64.ofNat y)
  | .float x, .float y => x.beq y

/-- Is the Rust division `x / y` on `i64` a panic (divisor zero or the
overflow `i64::MIN / -1`)? -/
def i64DivPanics (x y : Int) : Bool := y == 0 || (x == i64Min && y == -1)

/-- `arithmetic_operation!(div, /)` from src/value.rs.  `none` models a
Rust panic: integer division by zero or `i64::MIN / -1` overflow. -/
def Number.div : Number → Number → Option Number
  | .int x, .int y => if i64DivPanics x y then none else some (.int (x.tdiv y))
  | .int x, .uint y =>
      if i64DivPanics x (u64AsI64 y) then none else some (.int (x.tdiv (u64AsI64 y)))
  | .int x, .float y => some (.float ((F64.ofInt x).div y))
  | .uint x, .int y =>
      if i64DivPanics (u64AsI64 x) y then none else some (.int ((u64AsI64 x).tdiv y))
  | .uint x, .uint y => if y == 0 then none else some (.uint (x / y))
  | .uint x, .float y => some (.float ((F64.ofNat x).div y))
  | .float x, .int y => some (.float (x.div (F64.ofInt y)))
  | .float x, .uint y => some (.float (x.div (F64.ofNat y)))
  | .float x, .float y => some (.float (x.div y))

/-- `arithmetic_operation!(modulo, %)` from src/value.rs.  `none` models a
Rust panic: integer remainder by zero or `i64::MIN % -1` overflow. -/
def Number.modulo : Number → Number → Option Number
  | .int x, .int y => if i64DivPanics x y then none else some (.int (x.tmod y))
  | .int x, .uint y =>
      if i64DivPanics x (u64AsI64 y) then none else some (.int (x.tmod (u64AsI64 y)))
  | .int x, .float y => some (.float ((F64.ofInt x).rem y))
  | .uint x, .int y =>
      if i64DivPanics (u64AsI64 x) y then none else some (.int ((u64AsI64 x).tmod y))
  | .uint x, .uint y => if y == 0 then none else some (.uint (x % y))
  | .uint x, .float y => some (.float ((F64.ofNat x).rem y))
  | .float x, .int y => some (.float (x.rem (F64.ofInt y)))
  | .float x, .uint y => some (.float (x.rem (F64.ofNat y)))
  | .float x, .float y => some (.float (x.rem y))

/-- The zero-divisor guard of `checked_div` / `checked_modulo`
(src/value.rs, lines 61-79): `Int 0`, `UInt 0` or `Float 0.0`. -/
def Number.isZeroDivisor : Number → Bool
  | .int d => d == 0
  | .uint d => d == 0
  | .float d => d.beq (.fin 0)

/-- `Number::checked_div` (src/value.rs, lines 61-69).  `Except.error ()`
models a Rust panic reached inside `self.div(rhs)` (only possible through
`i64::MIN / -1` after a cast, since zero divisors are filtered first). -/
def Number.checkedDiv (a b : Number) : Except Unit (Option Number) :=
  if b.isZeroDivisor then .ok none
  else match a.div b with
    | some q => .ok (some q)
    | none => .error ()

/-- `Number::checked_modulo` (src/value.rs, lines 71-79). -/
def Number.checkedModulo (a b : Number) : Except Unit (Option Number) :=
  if b.isZeroDivisor then .ok none
  else match a.modulo b with
    | some q => .ok (some q)
    | none => .error ()

/-! ### The trait-object value model (src/value.rs, lines 82-243)

`dyn Value` is a trait object; the concrete types given `impl Value for`
in src/value.rs are strings, `i32`/`i64` (both expose only `as_int`),
`u64`/`usize` (both expose only `as_uint`), `f64`, `bool`, hash maps
(objects), vectors (arrays) and `serde_json::value::Value`.  `DynValue`
is the closed union of those behaviours:

* `vint`/`vuint`/`vfloat`/`vstr`/`vbool` model the primitive impls, each
  of which overrides exactly one accessor;
* `varr`/`vobj` model the vector and hash-map impls (and serde arrays and
  objects, which behave identically);
* `vjnum i` models a `serde_json` integer number, whose `as_i64`,
  `as_u64` and `as_f64` accessors all answer (the last one by a lossy
  cast, exact in this model); serde floats behave as `vfloat`;
* `vnull` models `serde_json` `Null`, for which every accessor answers
  `None`. -/

inductive DynValue where
  | vstr (s : String)
  | vint (i : Int)
  | vuint (n : Nat)
  | vfloat (f : F64)
  | vbool (b : Bool)
  | varr (elems : List DynValue)
  | vobj (fields : List (String × DynValue))
  | vjnum (i : Int)
  | vnull

/-- First-match lookup in an association list (models `HashMap::get` /
`FrameContext::get`; keys in the embedded maps are unique). -/
def lookupAL {α : Type} (l : List (String × α)) (k : String) : Option α :=
  match l with
  | [] => none
  | (k', v) :: rest => if k' = k then some v else lookupAL rest k

/-- Insert-or-replace in an association list (models `HashMap::insert` /
`BTreeMap::insert`). -/
def insertAL {α : Type} (l : List (String × α)) (k : String) (v : α) :
    List (String × α) :=
  match l with
  | [] => [(k, v)]
  | (k', v') :: rest =>
      if k' = k then (k, v) :: rest else (k', v') :: insertAL rest k v

/-- `Value::as_str`: answers only for string-backed values. -/
def DynValue.asStr : DynValue → Option String
  | .vstr s => some s
  | _ => none

/-- `Value::as_int` (`as_i64` for serde values: a serde integer answers
exactly when it fits in `i64`). -/
def DynValue.asInt : DynValue → Option Int
  | .vint i => some i
  | .vjnum i => if i64Min ≤ i ∧ i ≤ i64Max then some i else none
  | _ => none

/-- `Value::as_uint` (`as_u64` for serde values: a serde integer answers
exactly when it is non-negative). -/
def DynValue.asUint : DynValue → Option Nat
  | .vuint n => some n
  | .vjnum i => if 0 ≤ i ∧ i < (u64Card : Int) then some i.toNat else none
  | _ => none

/-- `Value::as_float` (`as_f64` for serde values: any serde number answers,
integers via a cast that is exact in this model). -/
def DynValue.asFloat : DynValue → Option F64
  | .vfloat f => some f
  | .vjnum i => some (F64.ofInt i)
  | _ => none

/-- `Value::as_bool`. -/
def DynValue.asBool : DynValue → Option Bool
  | .vbool b => some b
  | _ => none

/-- `Value::is_array`. -/
def DynValue.isArray : DynValue → Bool
  | .varr _ => true
  | _ => false

/-- `Value::len`: answers only for arrays. -/
def DynValue.length : DynValue → Option Nat
  | .varr l => some l.length
  | _ => none

/-- `Value::get`: index into an array. -/
def DynValue.get : DynValue → Nat → Option DynValue
  | .varr l, i => l.get? i
  | _, _ => none

/-- `Value::is_object`. -/
def DynValue.isObject : DynValue → Bool
  | .vobj _ => true
  | _ => false

/-- `Value::get_prop`: key lookup in an object. -/
def DynValue.getProp : DynValue → String → Option DynValue
  | .vobj kvs, k => lookupAL kvs k
  | _, _ => none

/-- One probe of the default `Value::eq` (src/value.rs, lines 82-108): the
probe answers `true` exactly when both accessors answer and the answers
are equal; otherwise control falls through to the next probe. -/
def probeEq {α : Type} (beq : α → α → Bool) : Option α → Option α → Bool
  | some x, some y => beq x y
  | _, _ => false

/-- Default `Value::eq` (src/value.rs, lines 82-108): probe `as_str`,
`as_int`, `as_uint`, `as_float` (IEEE `==`), `as_bool` in order; `true` as
soon as a probe has two answers that are equal, `false` if no probe
succeeds. -/
def DynValue.eqv (a b : DynValue) : Bool :=
  probeEq (· == ·) a.asStr b.asStr ||
  probeEq (· == ·) a.asInt b.asInt ||
  probeEq (· == ·) a.asUint b.asUint ||
  probeEq F64.beq a.asFloat b.asFloat ||
  probeEq (· == ·) a.asBool b.asBool

/-- `Value::as_number` (src/value.rs, lines 121-125). -/
def DynValue.asNumber (v : DynValue) : Option Number :=
  (v.asFloat.map Number.float).orElse fun _ =>
    (v.asInt.map Number.int).orElse fun _ => v.asUint.map Number.uint

/-- `Value::to_number` (src/value.rs, lines 127-131): collapse any numeric
representation to `f64` (casts exact in this model). -/
def DynValue.toNumber (v : DynValue) : Option F64 :=
  v.asFloat.orElse fun _ =>
    (v.asInt.map F64.ofInt).orElse fun _ => v.asUint.map F64.ofNat

/-! ### Dotted-path segmentation

Rust splits paths with `str::split('.')` and `str::find('.')`; both are
modelled on the character list of the string.  `splitDots` yields the
(always non-empty) list of dot-separated segments, exactly as
`split('.')` does, including empty segments. -/

/-- Split a character list at every `'.'` (the result is never empty; the
empty list splits to `[[]]`, matching `"".split('.')`). -/
def splitDots : List Char → List (List Char)
  | [] => [[]]
  | c :: rest =>
      if c = '.' then [] :: splitDots rest
      else
        match splitDots rest with
        | s :: ss => (c :: s) :: ss
        | [] => [[c]]

/-- The segments of a dotted path, as strings. -/
def pathSegments (s : String) : List String :=
  (splitDots s.data).map String.mk

/-- Model of Rust `str::parse::<usize>()`: an optional leading `+`, then
one or more ASCII digits, value below `2^64` (overflow fails). -/
def parseUsize (s : String) : Option Nat :=
  let digits := match s.data with
    | '+' :: rest => rest
    | l => l
  if digits = [] then none
  else if digits.all Char.isDigit then
    let n := digits.foldl (fun acc c => acc * 10 + (c.toNat - '0'.toNat)) 0
    if n < u64Card then some n else none
  else none

/-- `Value::get_by_key` (src/value.rs, lines 133-142): an array consumes
the key as a parsed index, an object as a property name, anything else
fails. -/
def DynValue.getByKey (v : DynValue) (key : String) : Option DynValue :=
  if v.isArray then (parseUsize key).bind v.get
  else if v.isObject then v.getProp key
  else none

/-- The segment-consuming loop of `Value::get_by_pointer`: the accumulated
result after the first segment has been resolved. -/
def resolveSegsFrom : DynValue → List String → Option DynValue
  | r, [] => some r
  | r, p :: ps => (r.getByKey p).bind (resolveSegsFrom · ps)

/-- `Value::get_by_pointer` (src/value.rs, lines 144-151): split the
pointer at dots, resolve the first segment with `get_by_key`, then fold
`get_by_key` over the remaining segments, failing as soon as any segment
fails. -/
def DynValue.getByPointer (v : DynValue) (pointer : String) : Option DynValue :=
  match pathSegments pointer with
  | [] => none
  | s :: rest => (v.getByKey s).bind (resolveSegsFrom · rest)

/-! ### Stack frames (src/renderer/stack_frame.rs)

The `&'a Template` field carries no resolution-relevant state and is
omitted from the model.  `FrameContext` is a `HashMap<&str, &dyn Value>`,
modelled as an association list with unique keys. -/

/-- `FrameType` (src/renderer/stack_frame.rs, lines 10-20). -/
inductive FrameType where
  | origin
  | macroCall
  | forLoop
  | includeTpl
deriving DecidableEq

/-- `ForLoop` (src/renderer/for_loop.rs is not under src/).
Modelled from the spec: section 4.4 names the attributes of the for-loop
state — the current zero-based position, the declared key-name (only set
for key/value iteration), the declared value-name, and the iterated
collection (for key/value iteration, its keys alongside).  `is_key`
compares against the declared key-name, `get_current_key` /
`get_current_value` index the collection at the current position, and
`len` is the collection's length, computed eagerly. -/
structure ForLoop where
  current : Nat
  values : List DynValue
  keys : List DynValue
  keyName : Option String
  valueName : String

/-- Modelled from the spec: `ForLoop::len` (section 4.4, total length). -/
def ForLoop.len (fl : ForLoop) : Nat := fl.values.length

/-- Modelled from the spec: `ForLoop::is_key` (section 4.3, case (i):
"does the key equal the loop's key-name (only valid when iterating
key/value pairs)"). -/
def ForLoop.isKey (fl : ForLoop) (key : String) : Bool :=
  match fl.keyName with
  | some kn => kn == key
  | none => false

/-- Modelled from the spec: `ForLoop::get_current_key` (section 4.4). -/
def ForLoop.getCurrentKey (fl : ForLoop) : DynValue :=
  fl.keys.getD fl.current .vnull

/-- Modelled from the spec: `ForLoop::get_current_value` (section 4.4,
"query current key/value"; the renderer keeps `current` within bounds). -/
def ForLoop.getCurrentValue (fl : ForLoop) : DynValue :=
  fl.values.getD fl.current .vnull

/-- `StackFrame` (src/renderer/stack_frame.rs, lines 23-41), minus the
opaque `active_template` reference. -/
structure StackFrame where
  kind : FrameType
  name : String
  context : List (String × DynValue)
  forLoop : Option ForLoop
  macroNamespace : Option String

/-- `StackFrame::new` (src/renderer/stack_frame.rs, lines 44-53). -/
def StackFrame.new (kind : FrameType) (name : String) : StackFrame :=
  { kind := kind, name := name, context := [], forLoop := none,
    macroNamespace := none }

/-- `StackFrame::new_for_loop` (src/renderer/stack_frame.rs, lines 55-64). -/
def StackFrame.newForLoop (name : String) (fl : ForLoop) : StackFrame :=
  { kind := .forLoop, name := name, context := [], forLoop := some fl,
    macroNamespace := none }

/-- `StackFrame::new_macro` (src/renderer/stack_frame.rs, lines 66-80):
the frame context is exactly the map passed by the caller. -/
def StackFrame.newMacro (name ns : String) (context : List (String × DynValue)) :
    StackFrame :=
  { kind := .macroCall, name := name, context := context, forLoop := none,
    macroNamespace := some ns }

/-- `StackFrame::new_include` (src/renderer/stack_frame.rs, lines 82-91). -/
def StackFrame.newInclude (name : String) : StackFrame :=
  { kind := .includeTpl, name := name, context := [], forLoop := none,
    macroNamespace := none }

/-- `StackFrame::insert` (src/renderer/stack_frame.rs, lines 165-167). -/
def StackFrame.insert (f : StackFrame) (key : String) (value : DynValue) :
    StackFrame :=
  { f with context := insertAL f.context key value }

/-- `StackFrame::clear_context` (src/renderer/stack_frame.rs, lines
170-174): local bindings are cleared only on for-loop frames. -/
def StackFrame.clearContext (f : StackFrame) : StackFrame :=
  if f.forLoop.isSome then { f with context := [] } else f

/-- `StackFrame::find_value_in_frame` (src/renderer/stack_frame.rs, lines
100-114).  Rust splits the key at the first `'.'` (`key.find('.')`; the
guard `dot < key.len() + 1` is always true) and, on a hit, resolves the
remainder of the key against the binding with `get_by_pointer`; splitting
the remainder again yields exactly the remaining segments, so the model
works on `pathSegments` directly: one segment means no dot (plain lookup),
two or more mean the first segment is looked up and the rest traversed. -/
def StackFrame.findValueInFrame (f : StackFrame) (key : String) :
    Option DynValue :=
  match pathSegments key with
  | [k] => lookupAL f.context k
  | k :: s :: rest =>
      match lookupAL f.context k with
      | some v => (v.getByKey s).bind (resolveSegsFrom · rest)
      | none => none
  | [] => none

/-- The split of a key at its first dot, in segment form: `(real_key,
none)` when the key has no dot (Rust tail `""`), `(real_key, some rest)`
when it has one, where `rest` (never `[]`) is the segment list of the Rust
tail `&key[dot+1..]`. -/
def splitFirstDot (key : String) : String × Option (List String) :=
  match pathSegments key with
  | [k] => (k, none)
  | k :: rest => (k, some rest)
  | [] => ("", none)

/-- `StackFrame::find_value_in_for_loop` (src/renderer/stack_frame.rs,
lines 116-162).  The Rust tail string is `"index"` etc. exactly when its
segment list is the corresponding one-segment list, and is `""` exactly
when the key had no dot or the tail's segment list is `[""]`; the model
matches on segment lists accordingly.  (`current + 1` is a `usize`
increment; its wrap at `2^64 - 1` is unreachable since `current` indexes a
collection in memory.) -/
def StackFrame.findValueInForLoop (f : StackFrame) (key : String) :
    Option DynValue :=
  match f.forLoop with
  | none => none
  | some fl =>
    if fl.isKey key then some fl.getCurrentKey
    else
      let (realKey, tailSegs) := splitFirstDot key
      if realKey = "loop" then
        match tailSegs with
        | some ["index"] => some (.vuint (fl.current + 1))
        | some ["index0"] => some (.vuint fl.current)
        | some ["first"] => some (.vbool (fl.current == 0))
        | some ["last"] => some (.vbool (fl.current == usizeWrapSub fl.len 1))
        | _ => none
      else
        let v := fl.getCurrentValue
        if key = fl.valueName then some v
        else
          match tailSegs with
          | some ts =>
              if realKey = fl.valueName ∧ ts ≠ [""] then
                match ts with
                | s :: rest => (v.getByKey s).bind (resolveSegsFrom · rest)
                | [] => none
              else none
          | none => none

/-- `StackFrame::find_value` (src/renderer/stack_frame.rs, lines 95-97):
frame context first, then the for-loop state. -/
def StackFrame.findValue (f : StackFrame) (key : String) : Option DynValue :=
  (f.findValueInFrame key).orElse fun _ => f.findValueInForLoop key

/-- Modelled from the spec: the renderer's resolution walk over the live
stack (section 4.3, step 1 — the renderer itself is not under src/): the
frames are searched from innermost to outermost and the first frame whose
`find_value` answers wins (the final global-Context fallback of step 2 is
not needed here). -/
def resolveStack (frames : List StackFrame) (key : String) : Option DynValue :=
  match frames with
  | [] => none
  | f :: rest => (f.findValue key).orElse fun _ => resolveStack rest key

/-! ### Array filters (src/builtins/filters/array.rs, lines 10-58)

Filter arguments are a `HashMap<String, Box<dyn Value>>`, modelled as an
association list.  The error message of `ensure_value_is_array` embeds a
`{:?}` debug rendering of the offending value; the model keeps the
message's fixed part (the debug rendering is irrelevant to every property
proved here). -/

/-- `ensure_value_is_array` (src/builtins/filters/array.rs, lines 10-19). -/
def ensureValueIsArray (filterName : String) (value : DynValue) :
    Except String Unit :=
  if value.isArray then .ok ()
  else .error ("Filter `" ++ filterName ++
    "` was called on an incorrect value: expected an array")

/-- `nth` (src/builtins/filters/array.rs, lines 28-43): empty arrays
short-circuit to the empty string before the `n` argument is read. -/
def filterNth (value : DynValue) (args : List (String × DynValue)) :
    Except String DynValue := do
  let _ ← ensureValueIsArray "nth" value
  if value.length == some 0 then
    return .vstr ""
  let index ← match lookupAL args "n" with
    | some val =>
        match val.asUint with
        | some n => pure n
        | none => .error ("Filter `nth` received an incorrect type for arg `n`: expected a uint")
    | none => .error "The `nth` filter has to have an `n` argument"
  return (value.get index).getD (.vstr "")

/-- `first` (src/builtins/filters/array.rs, lines 45-50). -/
def filterFirst (value : DynValue) (_args : List (String × DynValue)) :
    Except String DynValue := do
  let _ ← ensureValueIsArray "first" value
  return (value.get 0).getD (.vstr "")

/-- `last` (src/builtins/filters/array.rs, lines 52-58): the index is
`len - 1` on `usize`, which wraps on an empty array (release semantics),
sending the lookup out of bounds and hence to the empty-string default. -/
def filterLast (value : DynValue) (_args : List (String × DynValue)) :
    Except String DynValue := do
  let _ ← ensureValueIsArray "last" value
  let lastIndex := match value.length with
    | some l => usizeWrapSub l 1
    | none => 0
  return (value.get lastIndex).getD (.vstr "")

/-! ### Built-in testers (src/builtins/testers.rs)

A tester receives an optional value (absent means the variable was
undefined) and a list of positional arguments, and returns `Result<bool>`.
The external `regex` crate used by `matching` is abstracted as an explicit
compilation function passed to the model (`none` models an invalid
pattern). -/

/-- `number_args_allowed` (src/builtins/testers.rs, lines 21-37). -/
def numberArgsAllowed (testerName : String) (maxArgs argsLen : Nat) :
    Except String Unit :=
  if maxArgs == 0 && argsLen > maxArgs then
    .error ("Tester `" ++ testerName ++
      "` was called with some args but this test doesn't take args")
  else if argsLen > maxArgs then
    .error ("Tester `" ++ testerName ++ "` was called with " ++
      toString argsLen ++ " args, the max number is " ++ toString maxArgs)
  else .ok ()

/-- `value_defined` (src/builtins/testers.rs, lines 40-49). -/
def valueDefined (testerName : String) (value : Option DynValue) :
    Except String Unit :=
  if value.isNone then
    .error ("Tester `" ++ testerName ++ "` was called on an undefined variable")
  else .ok ()

/-- `defined` tester (src/builtins/testers.rs, lines 52-56). -/
def testerDefined (value : Option DynValue) (params : List DynValue) :
    Except String Bool := do
  let _ ← numberArgsAllowed "defined" 0 params.length
  return value.isSome

/-- `undefined` tester (src/builtins/testers.rs, lines 59-63). -/
def testerUndefined (value : Option DynValue) (params : List DynValue) :
    Except String Bool := do
  let _ ← numberArgsAllowed "undefined" 0 params.length
  return value.isNone

/-- `string` tester (src/builtins/testers.rs, lines 66-74). -/
def testerString (value : Option DynValue) (params : List DynValue) :
    Except String Bool := do
  let _ ← numberArgsAllowed "string" 0 params.length
  let _ ← valueDefined "string" value
  match value with
  | some v => return v.asStr.isSome
  | none => return false

/-- `number` tester (src/builtins/testers.rs, lines 77-85). -/
def testerNumber (value : Option DynValue) (params : List DynValue) :
    Except String Bool := do
  let _ ← numberArgsAllowed "number" 0 params.length
  let _ ← valueDefined "number" value
  match value with
  | some v => return v.asInt.isSome || v.asUint.isSome || v.asFloat.isSome
  | none => return false

/-- `odd` tester (src/builtins/testers.rs, lines 88-94): the parity check
is `num % 2.0 != 0.0` on `f64`. -/
def testerOdd (value : Option DynValue) (params : List DynValue) :
    Except String Bool := do
  let _ ← numberArgsAllowed "odd" 0 params.length
  let _ ← valueDefined "odd" value
  match value.bind DynValue.toNumber with
  | some num => return !(num.rem (.fin 2)).beq (.fin 0)
  | none => .error "Tester `odd` was called on a variable that isn't a number"

/-- `even` tester (src/builtins/testers.rs, lines 97-103). -/
def testerEven (value : Option DynValue) (params : List DynValue) :
    Except String Bool := do
  let _ ← numberArgsAllowed "even" 0 params.length
  let _ ← valueDefined "even" value
  let isOdd ← testerOdd value params
  return !isOdd

/-- `divisible_by` tester (src/builtins/testers.rs, lines 106-119). -/
def testerDivisibleBy (value : Option DynValue) (params : List DynValue) :
    Except String Bool := do
  let _ ← numberArgsAllowed "divisibleby" 1 params.length
  let _ ← valueDefined "divisibleby" value
  let val ← match value.bind DynValue.toNumber with
    | some v => pure v
    | none => .error "Tester `divisibleby` was called on a variable that isn't a number"
  match params.head?.bind DynValue.toNumber with
  | some p => return (val.rem p).beq (.fin 0)
  | none => .error "Tester `divisibleby` was called with a parameter that isn't a number"

/-- `iterable` tester (src/builtins/testers.rs, lines 123-128). -/
def testerIterable (value : Option DynValue) (params : List DynValue) :
    Except String Bool := do
  let _ ← numberArgsAllowed "iterable" 0 params.length
  let _ ← valueDefined "iterable" value
  return (value.getD .vnull).isArray

/-- `extract_string` (src/builtins/testers.rs, lines 132-140). -/
def extractString (testerName part : String) (value : Option DynValue) :
    Except String String :=
  match value.bind DynValue.asStr with
  | some s => .ok s
  | none => .error ("Tester `" ++ testerName ++ "` was called " ++ part ++
      " that isn't a string")

/-- `starting_with` tester (src/builtins/testers.rs, lines 143-150). -/
def testerStartingWith (value : Option DynValue) (params : List DynValue) :
    Except String Bool := do
  let _ ← numberArgsAllowed "starting_with" 1 params.length
  let _ ← valueDefined "starting_with" value
  let v ← extractString "starting_with" "on a variable" value
  let needle ← extractString "starting_with" "with a parameter" params.head?
  return v.startsWith needle

/-- `ending_with` tester (src/builtins/testers.rs, lines 153-160). -/
def testerEndingWith (value : Option DynValue) (params : List DynValue) :
    Except String Bool := do
  let _ ← numberArgsAllowed "ending_with" 1 params.length
  let _ ← valueDefined "ending_with" value
  let v ← extractString "ending_with" "on a variable" value
  let needle ← extractString "ending_with" "with a parameter" params.head?
  return v.endsWith needle

/-- Does `pat` occur as a contiguous run inside `l`? -/
def subSearch (pat : List Char) : List Char → Bool
  | [] => pat.isEmpty
  | c :: rest => pat.isPrefixOf (c :: rest) || subSearch pat rest

/-- Substring containment on strings (Rust `str::contains(&str)`), via
contiguous containment of the character lists. -/
def strContainsSub (s pat : String) : Bool :=
  subSearch pat.data s.data

/-- `containing` tester (src/builtins/testers.rs, lines 163-181): strings
use substring search, arrays linear search under the dynamic `eq`
contract, objects key membership. -/
def testerContaining (value : Option DynValue) (params : List DynValue) :
    Except String Bool := do
  let _ ← numberArgsAllowed "containing" 1 params.length
  let _ ← valueDefined "containing" value
  match value.bind DynValue.asStr with
  | some v => do
      let needle ← extractString "containing" "with a parameter" params.head?
      return strContainsSub v needle
  | none =>
    if (value.getD .vnull).isArray then
      let needle := params.headD .vnull
      let v := value.getD .vnull
      let len := v.length.getD 0
      return (List.range len).any fun i => ((v.get i).getD .vnull).eqv needle
    else if (value.getD .vnull).isObject then do
      let needle ← extractString "containing" "with a parameter" params.head?
      return ((value.getD .vnull).getProp needle).isSome
    else
      .error "Tester `containing` can only be used on string, array or map"

/-- `matching` tester (src/builtins/testers.rs, lines 184-202).  The
external `regex` crate is abstracted by `regexCompile`: `none` models
`Regex::new` failing on an invalid pattern, `some m` a compiled regex
whose `is_match` is `m`. -/
def testerMatching (regexCompile : String → Option (String → Bool))
    (value : Option DynValue) (params : List DynValue) :
    Except String Bool := do
  let _ ← numberArgsAllowed "matching" 1 params.length
  let _ ← valueDefined "matching" value
  let v ← extractString "matching" "on a variable" value
  let pat ← extractString "matching" "with a parameter" params.head?
  match regexCompile pat with
  | some m => return m v
  | none => .error ("Tester `matching`: Invalid regular expression: " ++ pat)

/-! ### The closed-enum value model (used by src/sort_utils.rs and
src/context.rs)

The enum itself is not defined under src/, but its variant list is fully
determined by the exhaustive matches in src/sort_utils.rs
(`get_sort_strategy_for_type`) and src/context.rs (`ValueRender::render`):
`Bool`, `Integer(i64)`, `Float(f64)`, `String`, `Array`, `Object`. -/

inductive EValue where
  | bool (b : Bool)
  | integer (i : Int)
  | float (f : F64)
  | str (s : String)
  | arr (elems : List EValue)
  | obj (fields : List (String × EValue))

/-- Modelled from the spec: the `try_bool` typed extraction of the enum
value model (section 4.1: "returns the underlying primitive or signals a
`TypeMismatch` error"); the enum's impl block is not under src/. -/
def EValue.tryBool : EValue → Except String Bool
  | .bool b => .ok b
  | _ => .error "expected bool"

/-- Modelled from the spec: `try_integer` (section 4.1; see
`EValue.tryBool`). -/
def EValue.tryInteger : EValue → Except String Int
  | .integer i => .ok i
  | _ => .error "expected integer"

/-- Modelled from the spec: `try_float` (section 4.1; see
`EValue.tryBool`). -/
def EValue.tryFloat : EValue → Except String F64
  | .float f => .ok f
  | _ => .error "expected float"

/-- Modelled from the spec: `try_str` (section 4.1; see `EValue.tryBool`). -/
def EValue.tryStr : EValue → Except String String
  | .str s => .ok s
  | _ => .error "expected string"

/-- Modelled from the spec: `try_array` (section 4.1; see
`EValue.tryBool`). -/
def EValue.tryArray : EValue → Except String (List EValue)
  | .arr l => .ok l
  | _ => .error "expected array"

/-! ### Sort engine (src/sort_utils.rs) -/

/-- `OrderedF64::new` (src/sort_utils.rs, lines 8-16): only finite floats
are admitted as sort keys; the payload of an admitted key is its exact
value. -/
def OrderedF64.new : F64 → Except String ℚ
  | .fin q => .ok q
  | f => .error (f.display ++ " cannot be sorted")

/-- The five sort strategies of `get_sort_strategy_for_type`
(src/sort_utils.rs, lines 72-76: `Bools`, `Integers`, `Floats`, `Strings`,
`Arrays`). -/
inductive Strategy where
  | bools
  | integers
  | floats
  | strings
  | arrays
deriving DecidableEq

/-- `get_sort_strategy_for_type` (src/sort_utils.rs, lines 106-116):
strategy from the runtime type of the representative key; objects are
rejected eagerly. -/
def getSortStrategyForType : EValue → Except String Strategy
  | .bool _ => .ok .bools
  | .integer _ => .ok .integers
  | .float _ => .ok .floats
  | .str _ => .ok .strings
  | .arr _ => .ok .arrays
  | .obj _ => .error "Object is not a sortable value"

/-- `<i64 as GetSortKey>::get_sort_key` (src/sort_utils.rs, lines 34-38). -/
def getSortKeyInteger (v : EValue) : Except String Int := v.tryInteger

/-- `<OrderedF64 as GetSortKey>::get_sort_key` (src/sort_utils.rs, lines
40-45). -/
def getSortKeyFloat (v : EValue) : Except String ℚ := do
  let f ← v.tryFloat
  OrderedF64.new f

/-- `<bool as GetSortKey>::get_sort_key` (src/sort_utils.rs, lines 47-51). -/
def getSortKeyBool (v : EValue) : Except String Bool := v.tryBool

/-- `<String as GetSortKey>::get_sort_key` (src/sort_utils.rs, lines
53-58). -/
def getSortKeyString (v : EValue) : Except String String := v.tryStr

/-- `<ArrayLen as GetSortKey>::get_sort_key` (src/sort_utils.rs, lines
60-65). -/
def getSortKeyArrayLen (v : EValue) : Except String Nat := do
  let l ← v.tryArray
  return l.length

/-- The key order a `SortPairs<K>` sorts by: comparison of the derived
keys attached to the values. -/
def pairLe {K : Type} [LinearOrder K] (a b : EValue × K) : Prop := a.2 ≤ b.2

instance {K : Type} [LinearOrder K] : DecidableRel (@pairLe K _) :=
  fun a b => inferInstanceAs (Decidable (a.2 ≤ b.2))

/-- Repeated `try_add_pair` over a key column (src/sort_utils.rs, lines
79-83): each value is paired with its derived key in order, and the first
non-conforming key fails the whole column. -/
def tryAddPairs {K : Type} (getKey : EValue → Except String K) :
    List EValue → Except String (List (EValue × K))
  | [] => .ok []
  | v :: rest => do
    let k ← getKey v
    let ps ← tryAddPairs getKey rest
    pure ((v, k) :: ps)

/-- `SortPairs<K>`: repeated `try_add_pair` over a key column, followed by
`sort` (src/sort_utils.rs, lines 85-89).  `Vec::sort_by_key` is a stable
sort by derived key; it is modelled by `List.insertionSort`, the stable
sort of the key order (any two stable sorts by the same key agree).  The
column's values serve as their own sort keys (the `sort` filter with an
empty `attribute`). -/
def runSort {K : Type} [LinearOrder K] (getKey : EValue → Except String K)
    (l : List EValue) : Except String (List EValue) := do
  let pairs ← tryAddPairs getKey l
  return (pairs.insertionSort pairLe).map Prod.fst

/-- The sort engine over a column of values used as their own sort keys:
`get_sort_strategy_for_type` on the representative (first) key selects the
strategy, then the column is added pair by pair and sorted (the dispatch
mirrors `Box<SortStrategy>` selection in src/sort_utils.rs, lines
106-116). -/
def sortValues (l : List EValue) : Except String (List EValue) :=
  match l with
  | [] => .ok []
  | ty :: _ => do
    let strat ← getSortStrategyForType ty
    match strat with
    | .bools => runSort getSortKeyBool l
    | .integers => runSort getSortKeyInteger l
    | .floats => runSort getSortKeyFloat l
    | .strings => runSort getSortKeyString l
    | .arrays => runSort getSortKeyArrayLen l

/-- Does the key extraction derive exactly the key `c` from `v`? -/
def keyMatches {K : Type} [DecidableEq K] (getKey : EValue → Except String K)
    (c : K) (v : EValue) : Bool :=
  match getKey v with
  | .ok k => decide (k = c)
  | .error _ => false

/-- Stability of a sort by derived keys: for every key value, the
subsequence of elements deriving that key is unchanged. -/
def stableFor {K : Type} [DecidableEq K] (getKey : EValue → Except String K)
    (l out : List EValue) : Prop :=
  ∀ c : K, out.filter (fun v => keyMatches getKey c v) =
    l.filter (fun v => keyMatches getKey c v)

/-! ### Context (src/context.rs) -/

/-- `Context` (src/context.rs, lines 13-16): a `BTreeMap<String, Value>`
of top-level bindings, modelled as an association list with unique keys. -/
structure Context where
  data : List (String × EValue)

/-- `Context::new` (src/context.rs, lines 20-22). -/
def Context.new : Context := ⟨[]⟩

/-- `Context::insert` (src/context.rs, lines 31-33), with the value
already converted to the value model. -/
def Context.insert (c : Context) (key : String) (val : EValue) : Context :=
  ⟨insertAL c.data key val⟩

/-- `Context::extend` (src/context.rs, lines 47-49): `BTreeMap::append`
moves every binding of `source` into `self`, overwriting existing keys and
leaving `source` empty.  The pair returned models the post-state of both
maps (target first, drained source second). -/
def Context.extend (target source : Context) : Context × Context :=
  (⟨source.data.foldl (fun acc kv => insertAL acc kv.1 kv.2) target.data⟩,
   ⟨[]⟩)

/-- Binding lookup in a context (`BTreeMap::get`). -/
def Context.find (c : Context) (key : String) : Option EValue :=
  lookupAL c.data key

/-! ### Auxiliary predicates and spec-side definitions -/

/-- Did the computation fail? -/
def exceptIsError {ε α : Type} : Except ε α → Bool
  | .error _ => true
  | .ok _ => false

/-- The divisor-side overflow cases of `Number::div` / `Number::modulo`:
the dividend is `i64::MIN` (directly or through the `u64 as i64` cast) and
the divisor casts to `-1`, making the underlying Rust integer division
abort even though the divisor is not a numeric zero. -/
def divCastOverflows : Number → Number → Bool
  | .int x, .int y => x == i64Min && y == -1
  | .int x, .uint y => x == i64Min && u64AsI64 y == -1
  | .uint x, .int y => u64AsI64 x == i64Min && y == -1
  | .uint _, .uint _ => false
  | _, _ => false

/-- A `Number` whose payload lies in its machine type's range (`i64` for
`Int`, `u64` for `UInt`): the invariant every value built from Rust
machine integers satisfies. -/
def Number.wf : Number → Prop
  | .int i => i64Min ≤ i ∧ i ≤ i64Max
  | .uint n => n < u64Card
  | .float _ => True

/-- One resolution step of the spec's pointer contract (spec section 4.1):
a segment is interpreted as an index into an Array — succeeding only when
it parses as a non-negative integer naming an existing element — or as a
key into an Object, and fails on every other value. -/
def specStep (v : DynValue) (seg : String) : Option DynValue :=
  match v with
  | .varr elems =>
      match parseUsize seg with
      | some i => elems.get? i
      | none => none
  | .vobj fields => lookupAL fields seg
  | _ => none

/-- The spec's pointer contract (spec section 4.1 and testable property:
"returns the deeply nested value when every segment resolves, and not
found if any segment fails, for any path length at least 1"): successively
interpret each segment against the value reached so far, failing as soon
as any segment fails. -/
def specResolve : DynValue → List String → Option DynValue
  | _, [] => none
  | v, [s] => specStep v s
  | v, s :: s' :: rest => (specStep v s).bind (specResolve · (s' :: rest))

/-! ### Helper lemmas -/

/-- Splitting a character list at dots never yields an empty segment
list. -/
theorem splitDots_ne_nil (l : List Char) : splitDots l ≠ [] := by
  induction l with
  | nil => simp [splitDots]
  | cons c rest ih =>
    simp only [splitDots]
    split
    · simp
    · cases h : splitDots rest with
      | nil => simp
      | cons s ss => simp

/-- A one-segment split means the list had no dot and the segment is the
whole list. -/
theorem splitDots_singleton {l t : List Char} (h : splitDots l = [t]) :
    t = l := by
  induction l generalizing t with
  | nil =>
    simp only [splitDots] at h
    injection h with h1 h2
    exact h1.symm
  | cons c rest ih =>
    by_cases hc : c = '.'
    · rw [splitDots, if_pos hc] at h
      injection h with h1 h2
      exact absurd h2 (splitDots_ne_nil rest)
    · rw [splitDots, if_neg hc] at h
      cases hr : splitDots rest with
      | nil => exact absurd hr (splitDots_ne_nil rest)
      | cons s ss =>
        rw [hr] at h
        injection h with h1 h2
        subst h2
        have hs : s = rest := ih hr
        rw [← h1, hs]

/-- The segment list of a key is never empty. -/
theorem pathSegments_ne_nil (s : String) : pathSegments s ≠ [] := by
  simp only [pathSegments]
  intro h
  exact splitDots_ne_nil s.data (List.map_eq_nil_iff.mp h)

/-- A looked-up key that is absent from the key column yields nothing. -/
theorem lookupAL_eq_none_of_not_mem {α : Type} {l : List (String × α)}
    {k : String} (h : k ∉ l.map Prod.fst) : lookupAL l k = none := by
  induction l with
  | nil => rfl
  | cons kv rest ih =>
    obtain ⟨a, b⟩ := kv
    simp only [List.map_cons, List.mem_cons] at h
    push_neg at h
    simp only [lookupAL]
    rw [if_neg fun hc => h.1 hc.symm, ih h.2]

/-- Lookup after insert-or-replace: the inserted key answers the new
value, every other key is untouched. -/
theorem lookupAL_insertAL {α : Type} (l : List (String × α)) (k k' : String)
    (v : α) :
    lookupAL (insertAL l k v) k' = if k = k' then some v else lookupAL l k' := by
  induction l with
  | nil => simp [insertAL, lookupAL]
  | cons kv rest ih =>
    obtain ⟨a, b⟩ := kv
    simp only [insertAL]
    by_cases hak : a = k
    · subst hak
      rw [if_pos rfl]
      simp only [lookupAL]
      by_cases hkk : a = k'
      · rw [if_pos hkk, if_pos hkk]
      · rw [if_neg hkk, if_neg hkk, if_neg hkk]
    · rw [if_neg hak]
      simp only [lookupAL, ih]
      by_cases hak' : a = k'
      · have hkk : k ≠ k' := fun hc => hak (hc ▸ hak')
        rw [if_pos hak', if_neg hkk, if_pos hak']
      · rw [if_neg hak', if_neg hak']

/-- The code's per-segment step agrees with the spec's: arrays consume a
parsed index, objects a key, everything else fails. -/
theorem getByKey_eq_specStep (v : DynValue) (s : String) :
    v.getByKey s = specStep v s := by
  cases v <;>
    simp only [DynValue.getByKey, specStep, DynValue.isArray, DynValue.isObject,
      DynValue.get, DynValue.getProp, if_true, if_false, Bool.false_eq_true,
      ite_false, ite_true]
  case varr elems => cases parseUsize s <;> rfl

/-- Composing one code step with the code's remaining-segment loop is the
spec's resolution of the whole segment list. -/
theorem getByKey_resolveSegsFrom (rest : List String) (v : DynValue)
    (s : String) :
    (v.getByKey s).bind (fun r => resolveSegsFrom r rest) =
      specResolve v (s :: rest) := by
  induction rest generalizing v s with
  | nil =>
    cases h : v.getByKey s with
    | none => simp [specResolve, ← getByKey_eq_specStep, h]
    | some r => simp [specResolve, ← getByKey_eq_specStep, h, resolveSegsFrom]
  | cons s' rest' ih =>
    cases h : v.getByKey s with
    | none => simp [specResolve, ← getByKey_eq_specStep, h]
    | some r =>
      simp only [specResolve, ← getByKey_eq_specStep, h, Option.some_bind]
      rw [resolveSegsFrom]
      exact ih r s'

/-- C4: for every value and every dot-delimited path (whose segment list
always has length at least 1), `get_by_pointer` returns exactly the nested
sub-value reached by interpreting each successive segment as an index into
an Array (succeeding only when the segment parses as a non-negative
integer naming an existing element) or as a key into an Object, and
returns no result as soon as any segment fails to resolve — i.e. it
coincides with the spec's segment-by-segment resolution. -/
theorem c4_pointer_matches_spec (v : DynValue) (p : String) :
    v.getByPointer p = specResolve v (pathSegments p) := by
  cases h : pathSegments p with
  | nil => exact absurd h (pathSegments_ne_nil p)
  | cons s rest =>
    simp only [DynValue.getByPointer, h]
    exact getByKey_resolveSegsFrom rest v s

/-- C6: under the dynamic `eq` contract, equality holds across integer and
float representations via numeric coercion: a value holding an integer
`i` (a serde-backed number, whose `as_f64` coerces) and a value holding
the float with the same exact value compare equal under `eq`.  The bound
keeps the integer in the range where the `i64`-to-`f64` cast is exact;
in particular integer `2` equals float `2.0`. -/
theorem c6_numeric_cross_type_equality (i : Int)
    (_h : -(2 ^ 53) ≤ i ∧ i ≤ 2 ^ 53) :
    DynValue.eqv (.vjnum i) (.vfloat (.fin (i : ℚ))) = true := by
  simp only [DynValue.eqv, DynValue.asStr, DynValue.asInt, DynValue.asUint,
    DynValue.asFloat, DynValue.asBool, probeEq, F64.ofInt, F64.beq,
    Bool.or_eq_true, beq_iff_eq]
  tauto

/-- Witness for C6 at the claim's own instance: integer `2` and float
`2.0`. -/
theorem c6_numeric_cross_type_equality_witness :
    (-(2 ^ 53) ≤ (2 : Int) ∧ (2 : Int) ≤ 2 ^ 53) ∧
      DynValue.eqv (.vjnum 2) (.vfloat (.fin ((2 : Int) : ℚ))) = true :=
  ⟨by constructor <;> decide,
   c6_numeric_cross_type_equality 2 (by constructor <;> decide)⟩

/-- C8: each of the filters `first`, `last` and `nth` applied to an empty
array — under any argument map whatsoever — returns `Ok` with the empty
string: not an error, not a panic and not an absent result.  (`nth`
short-circuits before even looking for its `n` argument; `last` survives
the wrapping `0 - 1` index computation because the out-of-bounds lookup
falls back to the empty-string default.) -/
theorem c8_empty_array_filter_defaults (args1 args2 args3 : List (String × DynValue)) :
    filterFirst (.varr []) args1 = .ok (.vstr "") ∧
    filterLast (.varr []) args2 = .ok (.vstr "") ∧
    filterNth (.varr []) args3 = .ok (.vstr "") := by
  refine ⟨rfl, rfl, rfl⟩

/-- Lookup after draining a whole map into another by repeated inserts:
the drained map wins on collisions, the base map answers otherwise. -/
theorem lookupAL_foldl_insertAL (s : List (String × EValue)) :
    ∀ (t : List (String × EValue)) (k : String),
      (s.map Prod.fst).Nodup →
      lookupAL (s.foldl (fun acc kv => insertAL acc kv.1 kv.2) t) k =
        (lookupAL s k).orElse (fun _ => lookupAL t k) := by
  induction s with
  | nil => intro t k _; simp [lookupAL, Option.orElse]
  | cons kv s' ih =>
    intro t k hnd
    obtain ⟨k0, v0⟩ := kv
    simp only [List.map_cons, List.nodup_cons] at hnd
    simp only [List.foldl_cons]
    rw [ih (insertAL t k0 v0) k hnd.2, lookupAL_insertAL]
    by_cases hk : k0 = k
    · subst hk
      rw [lookupAL_eq_none_of_not_mem hnd.1]
      simp [lookupAL, Option.orElse]
    · simp only [lookupAL, if_neg hk]

/-- C9: `Context::extend` merges the source context into the target so
that the result binds the union of both key sets with the source winning
on every collision, and the source is consumed (drained to the empty
map); on target `{a:1, b:2}` and source `{b:3, c:4}` the resulting target
is `{a:1, b:3, c:4}`.  (The uniqueness hypothesis is the `BTreeMap` key
invariant.) -/
theorem c9_context_extend (target source : Context) (k : String)
    (h : (source.data.map Prod.fst).Nodup) :
    (Context.extend target source).1.find k =
      ((source.find k).orElse (fun _ => target.find k)) ∧
    (Context.extend target source).2 = Context.new ∧
    Context.extend ⟨[("a", .integer 1), ("b", .integer 2)]⟩
        ⟨[("b", .integer 3), ("c", .integer 4)]⟩ =
      (⟨[("a", .integer 1), ("b", .integer 3), ("c", .integer 4)]⟩, Context.new) := by
  refine ⟨?_, rfl, rfl⟩
  exact lookupAL_foldl_insertAL source.data target.data k h

/-- Witness for C9 at the claim's own example, looking up the colliding
key `b` (the source's binding `3` wins). -/
theorem c9_context_extend_witness :
    ((([("b", EValue.integer 3), ("c", EValue.integer 4)] :
        List (String × EValue)).map Prod.fst).Nodup) ∧
    (Context.extend ⟨[("a", .integer 1), ("b", .integer 2)]⟩
        ⟨[("b", .integer 3), ("c", .integer 4)]⟩).1.find "b" =
      (((Context.mk [("b", .integer 3), ("c", .integer 4)]).find "b").orElse
        (fun _ => (Context.mk [("a", .integer 1), ("b", .integer 2)]).find "b")) :=
  ⟨by simp, (c9_context_extend ⟨[("a", .integer 1), ("b", .integer 2)]⟩
      ⟨[("b", .integer 3), ("c", .integer 4)]⟩ "b" (by simp)).1⟩

/-- C1: a `Macro` stack frame built by `new_macro` carries exactly and
only the bindings passed at call time; for every key whose first path
segment is not among those bindings (a macro frame has no for-loop
state), `find_value` on the frame finds nothing, so stack resolution
falls through to outer frames instead of being blocked — in particular,
with an outer frame binding `x = 10` and a macro frame binding only
`y = 5` pushed on top, resolving `x` innermost-first yields `10`. -/
theorem c1_macro_frame_hygiene (name ns key : String)
    (ctx : List (String × DynValue))
    (h : lookupAL ctx ((pathSegments key).headD "") = none) :
    (StackFrame.newMacro name ns ctx).context = ctx ∧
    (StackFrame.newMacro name ns ctx).findValue key = none ∧
    resolveStack
      [StackFrame.newMacro "m" "ns" [("y", .vuint 5)],
       (StackFrame.new .origin "outer").insert "x" (.vint 10)] "x" =
      some (.vint 10) := by
  refine ⟨rfl, ?_, rfl⟩
  rw [StackFrame.findValue]
  suffices hf : (StackFrame.newMacro name ns ctx).findValueInFrame key = none by
    rw [hf]; rfl
  simp only [StackFrame.findValueInFrame]
  cases hseg : pathSegments key with
  | nil => exact absurd hseg (pathSegments_ne_nil key)
  | cons k rest =>
    rw [hseg] at h
    simp only [List.headD_cons] at h
    cases rest with
    | nil => exact h
    | cons s rest' =>
      have hred : (match lookupAL ctx k with
          | some v => (v.getByKey s).bind fun x => resolveSegsFrom x rest'
          | none => none) = none := by rw [h]
      exact hred

/-- Witness for C1 at the claim's own scenario: the macro frame binds only
`y`, so looking up `x` inside it finds nothing and the outer frame
answers `10`. -/
theorem c1_macro_frame_hygiene_witness :
    lookupAL [("y", DynValue.vuint 5)]
        ((pathSegments "x").headD "") = none ∧
      ((StackFrame.newMacro "m" "ns" [("y", DynValue.vuint 5)]).findValue "x" = none ∧
       resolveStack
        [StackFrame.newMacro "m" "ns" [("y", .vuint 5)],
         (StackFrame.new .origin "outer").insert "x" (.vint 10)] "x" =
        some (.vint 10)) :=
  ⟨rfl, (c1_macro_frame_hygiene "m" "ns" "x" [("y", .vuint 5)] rfl).2⟩

/-- Boolean equality on positions agrees with the decided proposition. -/
theorem natBeq_eq_decide (a b : Nat) : (a == b) = decide (a = b) := by
  by_cases h : a = b
  · subst h; simp
  · simp [h]

/-- For a collection that fits in a `usize`, the wrapping `len - 1`
computes the honest predecessor. -/
theorem usizeWrapSub_one {n : Nat} (h1 : 1 ≤ n) (h2 : n ≤ u64Card) :
    usizeWrapSub n 1 = n - 1 := by
  unfold usizeWrapSub u64Card
  unfold u64Card at h2
  have h3 : 1 % 2 ^ 64 = 1 := by norm_num
  rw [h3]
  have h4 : n + 2 ^ 64 - 1 = (n - 1) + 2 ^ 64 := by omega
  rw [h4, Nat.add_mod_right]
  exact Nat.mod_eq_of_lt (by omega)

/-- Prefixing a key with `loop.` prepends exactly the segment `loop`. -/
theorem pathSegments_loop_append (tail : String) :
    pathSegments ("loop." ++ tail) = "loop" :: pathSegments tail := by
  have hdata : ("loop." ++ tail).data = 'l' :: 'o' :: 'o' :: 'p' :: '.' :: tail.data := by
    rw [String.data_append]
    congr 1
  have hsplit : splitDots ('l' :: 'o' :: 'o' :: 'p' :: '.' :: tail.data) =
      ['l','o','o','p'] :: splitDots tail.data := rfl
  simp only [pathSegments, hdata, hsplit, List.map_cons]

/-- A key with a one-segment split has no dot: the segment is the key. -/
theorem pathSegments_singleton {s t : String} (h : pathSegments s = [t]) :
    t = s := by
  simp only [pathSegments] at h
  cases hd : splitDots s.data with
  | nil => exact absurd hd (splitDots_ne_nil _)
  | cons d ds =>
    rw [hd] at h
    simp only [List.map_cons] at h
    injection h with h1 h2
    have hds0 : ds = [] := List.map_eq_nil_iff.mp h2
    subst hds0
    have hds : d = s.data := splitDots_singleton (by rw [hd])
    rw [← h1, hds]

/-- The `real_key` of the first-dot split is the key's first segment. -/
theorem splitFirstDot_fst (s : String) :
    (splitFirstDot s).1 = (pathSegments s).headD "" := by
  rw [splitFirstDot]
  cases h : pathSegments s with
  | nil => exact absurd h (pathSegments_ne_nil s)
  | cons k rest => cases rest <;> rfl

/-- Any tail under the reserved name `loop` other than the four built-in
attributes resolves to nothing in a for-loop frame. -/
theorem forLoop_other_tail_unresolved (p : Nat) (vals keys : List DynValue)
    (vname fname tail : String)
    (ht : tail ∉ (["index", "index0", "first", "last"] : List String)) :
    (StackFrame.newForLoop fname ⟨p, vals, keys, none, vname⟩).findValueInForLoop
      ("loop." ++ tail) = none := by
  simp only [StackFrame.findValueInForLoop, StackFrame.newForLoop, ForLoop.isKey,
    splitFirstDot, pathSegments_loop_append, Bool.false_eq_true, if_false]
  cases hts : pathSegments tail with
  | nil => exact absurd hts (pathSegments_ne_nil tail)
  | cons t ts =>
    dsimp only
    rw [if_pos rfl]
    split
    · rename_i heq
      injection heq with heq1
      have h1 : tail = "index" := (pathSegments_singleton (by rw [hts, heq1])).symm
      exact absurd h1 (by intro hc; exact ht (by rw [hc]; simp))
    · rename_i heq
      injection heq with heq1
      have h1 : tail = "index0" := (pathSegments_singleton (by rw [hts, heq1])).symm
      exact absurd h1 (by intro hc; exact ht (by rw [hc]; simp))
    · rename_i heq
      injection heq with heq1
      have h1 : tail = "first" := (pathSegments_singleton (by rw [hts, heq1])).symm
      exact absurd h1 (by intro hc; exact ht (by rw [hc]; simp))
    · rename_i heq
      injection heq with heq1
      have h1 : tail = "last" := (pathSegments_singleton (by rw [hts, heq1])).symm
      exact absurd h1 (by intro hc; exact ht (by rw [hc]; simp))
    · rfl

/-- Resolving the loop's value-name exactly (its first segment not being
the reserved `loop`) answers the current element. -/
theorem forLoop_value_name_resolves (p : Nat) (vals keys : List DynValue)
    (vname fname : String)
    (hv : (pathSegments vname).headD "" ≠ "loop") :
    (StackFrame.newForLoop fname ⟨p, vals, keys, none, vname⟩).findValueInForLoop
      vname = some (vals.getD p .vnull) := by
  simp only [StackFrame.findValueInForLoop, StackFrame.newForLoop, ForLoop.isKey,
    Bool.false_eq_true, if_false]
  cases hsp : splitFirstDot vname with
  | mk rk ts =>
    dsimp only
    have hrk : rk ≠ "loop" := by
      have hf := splitFirstDot_fst vname
      rw [hsp] at hf
      simp only [Prod.fst] at hf
      rw [hf]
      exact hv
    rw [if_neg hrk]
    simp only [if_true]
    rfl

/-- C5: in a `ForLoop` frame at zero-based position `p` over a collection
of length `n` (with `p < n`, `n` fitting in a `usize`), resolving
`loop.index` yields `p + 1`, `loop.index0` yields `p`, `loop.first` is
true exactly when `p = 0`, `loop.last` is true exactly when `p = n - 1`,
and any other tail under the reserved name `loop` is unresolved; resolving
the loop's value-name exactly yields the current element, and resolving
the value-name with a remaining path pointer-traverses the current
element: over `[{"id": 1}, {"id": 2}]` with value-name `item`, `item.id`
yields `1` at position 0 and `2` at position 1. -/
theorem c5_for_loop_resolution (p n : Nat) (vals keys : List DynValue)
    (vname fname : String)
    (hpn : p < n) (hlen : vals.length = n) (hcap : n ≤ u64Card)
    (hv : (pathSegments vname).headD "" ≠ "loop") :
    (StackFrame.newForLoop fname ⟨p, vals, keys, none, vname⟩).findValueInForLoop
        "loop.index" = some (.vuint (p + 1)) ∧
    (StackFrame.newForLoop fname ⟨p, vals, keys, none, vname⟩).findValueInForLoop
        "loop.index0" = some (.vuint p) ∧
    (StackFrame.newForLoop fname ⟨p, vals, keys, none, vname⟩).findValueInForLoop
        "loop.first" = some (.vbool (decide (p = 0))) ∧
    (StackFrame.newForLoop fname ⟨p, vals, keys, none, vname⟩).findValueInForLoop
        "loop.last" = some (.vbool (decide (p = n - 1))) ∧
    (∀ tail : String, tail ∉ (["index", "index0", "first", "last"] : List String) →
      (StackFrame.newForLoop fname ⟨p, vals, keys, none, vname⟩).findValueInForLoop
        ("loop." ++ tail) = none) ∧
    (StackFrame.newForLoop fname ⟨p, vals, keys, none, vname⟩).findValueInForLoop
        vname = some (vals.getD p .vnull) ∧
    (∀ q : Nat, q < 2 →
      (StackFrame.newForLoop "for"
        { current := q,
          values := [DynValue.vobj [("id", .vint 1)], DynValue.vobj [("id", .vint 2)]],
          keys := [], keyName := none,
          valueName := "item" }).findValueInForLoop "item.id" =
        some (.vint ((q : Int) + 1))) := by
  refine ⟨rfl, rfl, ?_, ?_, ?_, ?_, ?_⟩
  · have h : (StackFrame.newForLoop fname ⟨p, vals, keys, none, vname⟩).findValueInForLoop
        "loop.first" = some (.vbool (p == 0)) := rfl
    rw [h, natBeq_eq_decide]
  · have h : (StackFrame.newForLoop fname ⟨p, vals, keys, none, vname⟩).findValueInForLoop
        "loop.last" = some (.vbool (p == usizeWrapSub vals.length 1)) := rfl
    rw [h, hlen, usizeWrapSub_one (by omega) hcap, natBeq_eq_decide]
  · intro tail ht
    exact forLoop_other_tail_unresolved p vals keys vname fname tail ht
  · exact forLoop_value_name_resolves p vals keys vname fname hv
  · intro q hq
    interval_cases q <;> rfl

/-- Witness for C5 at position 1 of the claim's two-element collection. -/
theorem c5_for_loop_resolution_witness :
    ((1 : Nat) < 2 ∧
     ([DynValue.vobj [("id", .vint 1)], DynValue.vobj [("id", .vint 2)]] :
        List DynValue).length = 2 ∧
     (2 : Nat) ≤ u64Card ∧
     (pathSegments "item").headD "" ≠ "loop") ∧
    ((StackFrame.newForLoop "for"
        ⟨1, [DynValue.vobj [("id", .vint 1)], DynValue.vobj [("id", .vint 2)]],
         [], none, "item"⟩).findValueInForLoop "loop.index" =
      some (.vuint 2) ∧
     (StackFrame.newForLoop "for"
        ⟨1, [DynValue.vobj [("id", .vint 1)], DynValue.vobj [("id", .vint 2)]],
         [], none, "item"⟩).findValueInForLoop "item" =
      some (DynValue.vobj [("id", .vint 2)])) :=
  ⟨⟨by decide, by simp, by decide, by decide⟩,
   (c5_for_loop_resolution 1 2
      [DynValue.vobj [("id", .vint 1)], DynValue.vobj [("id", .vint 2)]]
      [] "item" "for" (by decide) (by simp) (by decide) (by decide)).1,
   by
    have h := (c5_for_loop_resolution 1 2
      [DynValue.vobj [("id", .vint 1)], DynValue.vobj [("id", .vint 2)]]
      [] "item" "for" (by decide) (by simp) (by decide) (by decide)).2.2.2.2.2.1
    simpa using h⟩

/-- A tester that checks its argument count and then requires a defined
value always fails on an undefined value, whatever comes after. -/
theorem isError_args_value_bind {α : Type} (n1 n2 : String) (mx ln : Nat)
    (rest : Unit → Unit → Except String α) :
    exceptIsError (do
      let u ← numberArgsAllowed n1 mx ln
      let w ← valueDefined n2 none
      rest u w) = true := by
  rw [numberArgsAllowed]
  split
  · rfl
  · split
    · rfl
    · rfl

/-- C10: every built-in tester other than `defined` and `undefined`
(`string`, `number`, `odd`, `even`, `divisible_by`, `iterable`,
`starting_with`, `ending_with`, `containing`, `matching`) returns an
error when applied to an undefined value, under any argument list (and,
for `matching`, any regex engine); whereas `defined` on an undefined
value returns `Ok(false)` and `undefined` returns `Ok(true)` — wrong-type
and undefined are never conflated at the tester interface. -/
theorem c10_testers_undefined_value (params : List DynValue)
    (rc : String → Option (String → Bool)) :
    exceptIsError (testerString none params) = true ∧
    exceptIsError (testerNumber none params) = true ∧
    exceptIsError (testerOdd none params) = true ∧
    exceptIsError (testerEven none params) = true ∧
    exceptIsError (testerDivisibleBy none params) = true ∧
    exceptIsError (testerIterable none params) = true ∧
    exceptIsError (testerStartingWith none params) = true ∧
    exceptIsError (testerEndingWith none params) = true ∧
    exceptIsError (testerContaining none params) = true ∧
    exceptIsError (testerMatching rc none params) = true ∧
    testerDefined none [] = .ok false ∧
    testerUndefined none [] = .ok true := by
  refine ⟨?_, ?_, ?_, ?_, ?_, ?_, ?_, ?_, ?_, ?_, rfl, rfl⟩
  · unfold testerString
    exact isError_args_value_bind "string" "string" 0 params.length _
  · unfold testerNumber
    exact isError_args_value_bind "number" "number" 0 params.length _
  · unfold testerOdd
    exact isError_args_value_bind "odd" "odd" 0 params.length _
  · unfold testerEven
    exact isError_args_value_bind "even" "even" 0 params.length _
  · unfold testerDivisibleBy
    exact isError_args_value_bind "divisibleby" "divisibleby" 1 params.length _
  · unfold testerIterable
    exact isError_args_value_bind "iterable" "iterable" 0 params.length _
  · unfold testerStartingWith
    exact isError_args_value_bind "starting_with" "starting_with" 1 params.length _
  · unfold testerEndingWith
    exact isError_args_value_bind "ending_with" "ending_with" 1 params.length _
  · unfold testerContaining
    exact isError_args_value_bind "containing" "containing" 1 params.length _
  · unfold testerMatching
    exact isError_args_value_bind "matching" "matching" 1 params.length _

/-- A nonzero `u64` below the cardinality bound never casts to `0 : i64`. -/
theorem u64AsI64_ne_zero {n : Nat} (h0 : n ≠ 0) (hlt : n < u64Card) :
    u64AsI64 n ≠ 0 := by
  unfold u64AsI64
  unfold u64Card at hlt
  have hn : (0 : Int) < (n : Int) := by exact_mod_cast Nat.pos_of_ne_zero h0
  have hn2 : (n : Int) < 2 ^ 64 := by exact_mod_cast hlt
  omega

/-- Counterexample to C7 as stated: the divisor `Int (-1)` is not a
numeric zero, yet `checked_div` and `checked_modulo` on the dividend
`Int i64::MIN` do not return `Some` — the underlying Rust division
`i64::MIN / -1` overflows and panics (modelled by `Except.error`). -/
theorem c7_checked_div_counterexample :
    Number.isZeroDivisor (.int (-1)) = false ∧
    Number.wf (.int i64Min) ∧ Number.wf (.int (-1)) ∧
    Number.checkedDiv (.int i64Min) (.int (-1)) = .error () ∧
    Number.checkedModulo (.int i64Min) (.int (-1)) = .error () := by
  refine ⟨rfl, ?_, ?_, rfl, rfl⟩ <;> constructor <;> decide

/-- C7 (amended): for machine-range operands, `checked_div` and
`checked_modulo` return `None` exactly when the divisor is a numeric zero
(`Int 0`, `UInt 0` or `Float 0.0`), without producing NaN for integer
operands; and for every nonzero divisor they return `Some` of the
quotient/remainder except in the `i64::MIN`-dividend, divisor-casting-to-
`-1` overflow cases, where the underlying Rust division itself aborts. -/
theorem c7_checked_div_modulo_amended (a b : Number) (hwa : a.wf) (hwb : b.wf) :
    (Number.checkedDiv a b = .ok none ↔ b.isZeroDivisor = true) ∧
    (Number.checkedModulo a b = .ok none ↔ b.isZeroDivisor = true) ∧
    (b.isZeroDivisor = false → divCastOverflows a b = false →
      (∃ q, Number.checkedDiv a b = .ok (some q)) ∧
      (∃ r, Number.checkedModulo a b = .ok (some r))) := by
  refine ⟨?_, ?_, ?_⟩
  · by_cases hz : b.isZeroDivisor
    · rw [Number.checkedDiv, if_pos hz]
      simp [hz]
    · rw [Number.checkedDiv, if_neg hz]
      simp only [Bool.not_eq_true] at hz
      cases hd : a.div b <;> simp [hd, hz]
  · by_cases hz : b.isZeroDivisor
    · rw [Number.checkedModulo, if_pos hz]
      simp [hz]
    · rw [Number.checkedModulo, if_neg hz]
      simp only [Bool.not_eq_true] at hz
      cases hd : a.modulo b <;> simp [hd, hz]
  · intro hz hov
    have hsome : (∃ q, a.div b = some q) ∧ (∃ r, a.modulo b = some r) := by
      cases a <;> cases b <;>
        simp_all [Number.div, Number.modulo, Number.isZeroDivisor,
          divCastOverflows, i64DivPanics, Number.wf, u64Card]
      case int.uint =>
        exact u64AsI64_ne_zero hz (by simpa [u64Card] using hwb)
    obtain ⟨⟨q, hq⟩, ⟨r, hr⟩⟩ := hsome
    constructor
    · exact ⟨q, by rw [Number.checkedDiv, if_neg (by simp [hz]), hq]⟩
    · exact ⟨r, by rw [Number.checkedModulo, if_neg (by simp [hz]), hr]⟩

/-- Witness for the amended C7 at `7 / 2` and `7 / 0`. -/
theorem c7_checked_div_modulo_amended_witness :
    (Number.wf (.int 7) ∧ Number.wf (.int 2) ∧ Number.wf (.int 0)) ∧
    (∃ q, Number.checkedDiv (.int 7) (.int 2) = .ok (some q)) ∧
    (Number.checkedDiv (.int 7) (.int 0) = .ok none ↔
      Number.isZeroDivisor (.int 0) = true) :=
  ⟨⟨⟨by decide, by decide⟩, ⟨by decide, by decide⟩, ⟨by decide, by decide⟩⟩,
   ((c7_checked_div_modulo_amended (.int 7) (.int 2)
       ⟨by decide, by decide⟩ ⟨by decide, by decide⟩).2.2 rfl rfl).1,
   (c7_checked_div_modulo_amended (.int 7) (.int 0)
       ⟨by decide, by decide⟩ ⟨by decide, by decide⟩).1⟩

/-- Monadic bind on a successful `Except` runs the continuation. -/
theorem exBind_ok {α β : Type} (a : α) (f : α → Except String β) :
    (Except.ok a >>= f) = f a := rfl

/-- Monadic bind on a failed `Except` short-circuits. -/
theorem exBind_error {α β : Type} (e : String) (f : α → Except String β) :
    ((Except.error e : Except String α) >>= f) = .error e := rfl

/-- `pure` into `Except` is `ok`. -/
theorem exPure {α : Type} (a : α) : (pure a : Except String α) = .ok a := rfl

instance pairLeTotal {K : Type} [LinearOrder K] : IsTotal (EValue × K) pairLe :=
  ⟨fun a b => le_total a.2 b.2⟩

instance pairLeTrans {K : Type} [LinearOrder K] : IsTrans (EValue × K) pairLe :=
  ⟨fun _ _ _ h1 h2 => le_trans h1 h2⟩

/-- A successful pair column carries the original values in order, each
paired with its own derived key. -/
theorem tryAddPairs_ok {K : Type} (getKey : EValue → Except String K) :
    ∀ (l : List EValue) (pairs : List (EValue × K)),
      tryAddPairs getKey l = .ok pairs →
      pairs.map Prod.fst = l ∧ ∀ p ∈ pairs, getKey p.1 = .ok p.2 := by
  intro l
  induction l with
  | nil =>
    intro pairs h
    injection h with h1
    subst h1
    simp
  | cons v l' ih =>
    intro pairs h
    rw [tryAddPairs] at h
    cases hk : getKey v with
    | error e => rw [hk, exBind_error] at h; exact absurd h (by simp)
    | ok k =>
      rw [hk, exBind_ok] at h
      cases hm : tryAddPairs getKey l' with
      | error e => rw [hm, exBind_error] at h; exact absurd h (by simp)
      | ok ps' =>
        rw [hm, exBind_ok, exPure] at h
        injection h with h1
        subst h1
        obtain ⟨ih1, ih2⟩ := ih ps' hm
        refine ⟨by simp [ih1], ?_⟩
        intro p hp
        rcases List.mem_cons.mp hp with hp1 | hp2
        · subst hp1; exact hk
        · exact ih2 p hp2

/-- Rebuilding the pair column from any list of value/derived-key pairs
succeeds and reproduces it. -/
theorem tryAddPairs_of_inv {K : Type} (getKey : EValue → Except String K) :
    ∀ (pairs : List (EValue × K)),
      (∀ p ∈ pairs, getKey p.1 = .ok p.2) →
      tryAddPairs getKey (pairs.map Prod.fst) = .ok pairs := by
  intro pairs
  induction pairs with
  | nil => intro _; rfl
  | cons p ps ih =>
    intro hinv
    obtain ⟨v, k⟩ := p
    have h1 : getKey v = .ok k := hinv (v, k) (List.mem_cons_self _ _)
    simp only [List.map_cons, tryAddPairs, h1, exBind_ok]
    rw [ih fun q hq => hinv q (List.mem_cons_of_mem _ hq), exBind_ok, exPure]

/-- One non-conforming key anywhere in the column fails the whole
column. -/
theorem tryAddPairs_error_of_mem {K : Type} (getKey : EValue → Except String K) :
    ∀ (l : List EValue) (x : EValue), x ∈ l →
      exceptIsError (getKey x) = true →
      ∃ msg, tryAddPairs getKey l = .error msg := by
  intro l
  induction l with
  | nil => intro x hx; exact absurd hx (List.not_mem_nil x)
  | cons v l' ih =>
    intro x hx herr
    rw [tryAddPairs]
    cases hk : getKey v with
    | error e => exact ⟨e, by rw [exBind_error]⟩
    | ok k =>
      rcases List.mem_cons.mp hx with hx1 | hx2
      · subst hx1
        rw [hk] at herr
        exact absurd herr (by simp [exceptIsError])
      · obtain ⟨msg, hmsg⟩ := ih x hx2 herr
        exact ⟨msg, by rw [exBind_ok, hmsg, exBind_error]⟩

/-- Ordered insertion puts the new pair in front of the pairs sharing its
key, so each key class gains the new pair at its head and nothing else
moves. -/
theorem filter_orderedInsert {K : Type} [LinearOrder K] [DecidableEq K] (c : K) (p : EValue × K) :
    ∀ l : List (EValue × K),
      (l.orderedInsert pairLe p).filter (fun q => decide (q.2 = c)) =
        if p.2 = c then p :: l.filter (fun q => decide (q.2 = c))
        else l.filter (fun q => decide (q.2 = c)) := by
  intro l
  induction l with
  | nil =>
    by_cases hpc : p.2 = c <;> simp [List.orderedInsert, List.filter, hpc]
  | cons b l' ih =>
    rw [List.orderedInsert]
    by_cases hle : pairLe p b
    · rw [if_pos hle]
      by_cases hpc : p.2 = c
      · rw [if_pos hpc]
        simp [List.filter_cons, hpc]
      · rw [if_neg hpc]
        simp [List.filter_cons, hpc]
    · rw [if_neg hle]
      have hblt : b.2 < p.2 := not_le.mp hle
      by_cases hpc : p.2 = c
      · have hbc : ¬ b.2 = c := by rw [← hpc]; exact ne_of_lt hblt
        rw [if_pos hpc]
        simp [List.filter_cons, hbc, ih, hpc]
      · rw [if_neg hpc]
        simp [List.filter_cons, ih, hpc]

/-- The stable sort leaves every key class's subsequence unchanged. -/
theorem filter_insertionSort {K : Type} [LinearOrder K] [DecidableEq K] (c : K)
    (pairs : List (EValue × K)) :
    (pairs.insertionSort pairLe).filter (fun q => decide (q.2 = c)) =
      pairs.filter (fun q => decide (q.2 = c)) := by
  induction pairs with
  | nil => rfl
  | cons p ps ih =>
    rw [List.insertionSort, filter_orderedInsert, ih]
    by_cases hpc : p.2 = c
    · rw [if_pos hpc]
      simp [List.filter_cons, hpc]
    · rw [if_neg hpc]
      simp [List.filter_cons, hpc]

/-- Core behaviour of a successful `SortPairs` run: the output is stable
over the input, sorting it again reproduces it, and it is a same-length
list of values whose keys all extract. -/
theorem runSort_ok {K : Type} [LinearOrder K] [DecidableEq K]
    (getKey : EValue → Except String K)
    (l out : List EValue) (h : runSort getKey l = .ok out) :
    stableFor getKey l out ∧ runSort getKey out = .ok out ∧
      out.length = l.length ∧ (∀ v ∈ out, ∃ k, getKey v = .ok k) := by
  rw [runSort] at h
  cases hp : tryAddPairs getKey l with
  | error e => rw [hp, exBind_error] at h; exact absurd h (by simp)
  | ok pairs =>
    rw [hp, exBind_ok, exPure] at h
    injection h with h1
    obtain ⟨hmap, hinv⟩ := tryAddPairs_ok getKey l pairs hp
    have hinv' : ∀ p ∈ pairs.insertionSort pairLe, getKey p.1 = .ok p.2 := by
      intro p hp2
      exact hinv p ((List.mem_insertionSort pairLe).mp hp2)
    refine ⟨?_, ?_, ?_, ?_⟩
    · intro c
      have e1 : out.filter (fun v => keyMatches getKey c v) =
          ((pairs.insertionSort pairLe).filter (fun q => decide (q.2 = c))).map
            Prod.fst := by
        rw [← h1, List.filter_map]
        congr 1
        apply List.filter_congr
        intro q hq
        simp only [Function.comp]
        rw [keyMatches, hinv' q hq]
      have e2 : l.filter (fun v => keyMatches getKey c v) =
          (pairs.filter (fun q => decide (q.2 = c))).map Prod.fst := by
        rw [← hmap, List.filter_map]
        congr 1
        apply List.filter_congr
        intro q hq
        simp only [Function.comp]
        rw [keyMatches, hinv q hq]
      rw [e1, e2, filter_insertionSort]
    · have hout_pairs : tryAddPairs getKey out = .ok (pairs.insertionSort pairLe) := by
        rw [← h1]
        exact tryAddPairs_of_inv getKey _ hinv'
      rw [runSort, hout_pairs, exBind_ok, exPure]
      have hsorted : List.Sorted pairLe (pairs.insertionSort pairLe) :=
        List.sorted_insertionSort pairLe pairs
      rw [hsorted.insertionSort_eq]
      rw [h1]
    · rw [← h1, ← hmap]
      simp
    · intro v hv
      rw [← h1] at hv
      obtain ⟨p, hpmem, hpeq⟩ := List.mem_map.mp hv
      exact ⟨p.2, hpeq ▸ hinv' p hpmem⟩

/-- A value whose boolean sort key extracts selects the boolean strategy
when it is the representative. -/
theorem strategy_of_keyBool {v : EValue} {k : Bool} (h : getSortKeyBool v = .ok k) :
    getSortStrategyForType v = .ok .bools := by
  cases v <;> simp_all [getSortKeyBool, EValue.tryBool, getSortStrategyForType]

/-- A value whose integer sort key extracts selects the integer strategy
when it is the representative. -/
theorem strategy_of_keyInteger {v : EValue} {k : Int}
    (h : getSortKeyInteger v = .ok k) :
    getSortStrategyForType v = .ok .integers := by
  cases v <;> simp_all [getSortKeyInteger, EValue.tryInteger, getSortStrategyForType]

/-- A value whose float sort key extracts selects the float strategy when
it is the representative. -/
theorem strategy_of_keyFloat {v : EValue} {k : ℚ} (h : getSortKeyFloat v = .ok k) :
    getSortStrategyForType v = .ok .floats := by
  cases v <;>
    simp_all [getSortKeyFloat, EValue.tryFloat, getSortStrategyForType,
      exBind_error, exBind_ok]

/-- A value whose string sort key extracts selects the string strategy
when it is the representative. -/
theorem strategy_of_keyString {v : EValue} {k : String}
    (h : getSortKeyString v = .ok k) :
    getSortStrategyForType v = .ok .strings := by
  cases v <;> simp_all [getSortKeyString, EValue.tryStr, getSortStrategyForType]

/-- A value whose array-length sort key extracts selects the array
strategy when it is the representative. -/
theorem strategy_of_keyArrayLen {v : EValue} {k : Nat}
    (h : getSortKeyArrayLen v = .ok k) :
    getSortStrategyForType v = .ok .arrays := by
  cases v <;>
    simp_all [getSortKeyArrayLen, EValue.tryArray, getSortStrategyForType,
      exBind_error, exBind_ok]

/-- C2: for every non-empty column of values whose sort keys all conform
to the strategy selected from the first key (i.e. the engine succeeds),
the sort is stable — for whichever strategy the representative key
selected, every key class keeps its original subsequence — and
idempotent: sorting the output again succeeds and returns it
unchanged. -/
theorem c2_sort_stable_idempotent (l out : List EValue) (hne : l ≠ [])
    (h : sortValues l = .ok out) :
    sortValues out = .ok out ∧
    (∀ hd2 tl2, l = hd2 :: tl2 →
      (getSortStrategyForType hd2 = .ok .bools → stableFor getSortKeyBool l out) ∧
      (getSortStrategyForType hd2 = .ok .integers → stableFor getSortKeyInteger l out) ∧
      (getSortStrategyForType hd2 = .ok .floats → stableFor getSortKeyFloat l out) ∧
      (getSortStrategyForType hd2 = .ok .strings → stableFor getSortKeyString l out) ∧
      (getSortStrategyForType hd2 = .ok .arrays → stableFor getSortKeyArrayLen l out)) := by
  cases l with
  | nil => exact absurd rfl hne
  | cons hd tl =>
    rw [sortValues] at h
    cases hs : getSortStrategyForType hd with
    | error e => rw [hs, exBind_error] at h; exact absurd h (by simp)
    | ok st =>
      rw [hs, exBind_ok] at h
      cases st with
      | bools =>
        obtain ⟨hstab, hidem, hlen, hmem⟩ := runSort_ok getSortKeyBool (hd :: tl) out h
        constructor
        · cases hout : out with
          | nil => rw [hout] at hlen; simp at hlen
          | cons o os =>
            rw [sortValues]
            obtain ⟨k, hk⟩ := hmem o (by rw [hout]; exact List.mem_cons_self _ _)
            rw [strategy_of_keyBool hk, exBind_ok]
            rw [hout] at hidem
            exact hidem
        · intro hd2 tl2 heq
          injection heq with he1 he2
          subst he1
          subst he2
          exact ⟨fun _ => hstab, fun hc => by rw [hs] at hc; simp at hc, fun hc => by rw [hs] at hc; simp at hc, fun hc => by rw [hs] at hc; simp at hc, fun hc => by rw [hs] at hc; simp at hc⟩
      | integers =>
        obtain ⟨hstab, hidem, hlen, hmem⟩ := runSort_ok getSortKeyInteger (hd :: tl) out h
        constructor
        · cases hout : out with
          | nil => rw [hout] at hlen; simp at hlen
          | cons o os =>
            rw [sortValues]
            obtain ⟨k, hk⟩ := hmem o (by rw [hout]; exact List.mem_cons_self _ _)
            rw [strategy_of_keyInteger hk, exBind_ok]
            rw [hout] at hidem
            exact hidem
        · intro hd2 tl2 heq
          injection heq with he1 he2
          subst he1
          subst he2
          exact ⟨fun hc => by rw [hs] at hc; simp at hc, fun _ => hstab, fun hc => by rw [hs] at hc; simp at hc, fun hc => by rw [hs] at hc; simp at hc, fun hc => by rw [hs] at hc; simp at hc⟩
      | floats =>
        obtain ⟨hstab, hidem, hlen, hmem⟩ := runSort_ok getSortKeyFloat (hd :: tl) out h
        constructor
        · cases hout : out with
          | nil => rw [hout] at hlen; simp at hlen
          | cons o os =>
            rw [sortValues]
            obtain ⟨k, hk⟩ := hmem o (by rw [hout]; exact List.mem_cons_self _ _)
            rw [strategy_of_keyFloat hk, exBind_ok]
            rw [hout] at hidem
            exact hidem
        · intro hd2 tl2 heq
          injection heq with he1 he2
          subst he1
          subst he2
          exact ⟨fun hc => by rw [hs] at hc; simp at hc, fun hc => by rw [hs] at hc; simp at hc, fun _ => hstab, fun hc => by rw [hs] at hc; simp at hc, fun hc => by rw [hs] at hc; simp at hc⟩
      | strings =>
        obtain ⟨hstab, hidem, hlen, hmem⟩ := runSort_ok getSortKeyString (hd :: tl) out h
        constructor
        · cases hout : out with
          | nil => rw [hout] at hlen; simp at hlen
          | cons o os =>
            rw [sortValues]
            obtain ⟨k, hk⟩ := hmem o (by rw [hout]; exact List.mem_cons_self _ _)
            rw [strategy_of_keyString hk, exBind_ok]
            rw [hout] at hidem
            exact hidem
        · intro hd2 tl2 heq
          injection heq with he1 he2
          subst he1
          subst he2
          exact ⟨fun hc => by rw [hs] at hc; simp at hc, fun hc => by rw [hs] at hc; simp at hc, fun hc => by rw [hs] at hc; simp at hc, fun _ => hstab, fun hc => by rw [hs] at hc; simp at hc⟩
      | arrays =>
        obtain ⟨hstab, hidem, hlen, hmem⟩ := runSort_ok getSortKeyArrayLen (hd :: tl) out h
        constructor
        · cases hout : out with
          | nil => rw [hout] at hlen; simp at hlen
          | cons o os =>
            rw [sortValues]
            obtain ⟨k, hk⟩ := hmem o (by rw [hout]; exact List.mem_cons_self _ _)
            rw [strategy_of_keyArrayLen hk, exBind_ok]
            rw [hout] at hidem
            exact hidem
        · intro hd2 tl2 heq
          injection heq with he1 he2
          subst he1
          subst he2
          exact ⟨fun hc => by rw [hs] at hc; simp at hc, fun hc => by rw [hs] at hc; simp at hc, fun hc => by rw [hs] at hc; simp at hc, fun hc => by rw [hs] at hc; simp at hc, fun _ => hstab⟩

/-- Witness for C2 on the integer column `[3, 1, 2]`: the sorted output
`[1, 2, 3]` re-sorts to itself. -/
theorem c2_sort_stable_idempotent_witness :
    (([.integer 3, .integer 1, .integer 2] : List EValue) ≠ []) ∧
    sortValues [.integer 3, .integer 1, .integer 2] =
      .ok [.integer 1, .integer 2, .integer 3] ∧
    sortValues [.integer 1, .integer 2, .integer 3] =
      .ok [.integer 1, .integer 2, .integer 3] :=
  ⟨by simp, by rfl,
   (c2_sort_stable_idempotent [.integer 3, .integer 1, .integer 2]
      [.integer 1, .integer 2, .integer 3] (by simp) (by rfl)).1⟩

/-- One non-conforming key anywhere in the column fails the whole
`SortPairs` run. -/
theorem runSort_error_of_mem {K : Type} [LinearOrder K]
    (getKey : EValue → Except String K) {l : List EValue} {x : EValue}
    (hx : x ∈ l) (he : exceptIsError (getKey x) = true) :
    exceptIsError (runSort getKey l) = true := by
  obtain ⟨msg, hmsg⟩ := tryAddPairs_error_of_mem getKey l x hx he
  rw [runSort, hmsg, exBind_error]
  rfl

/-- C3: the sort fails with the `not sortable` domain error whenever the
representative (first) key is an Object — rejected eagerly at strategy
selection with exactly the message `Object is not a sortable value`, no
matter what follows it — and it fails whenever any key in the column is a
non-finite float (NaN or an infinity), rejected at key extraction (the
finiteness guard under the float strategy, a type mismatch under any
other); the whole sort fails rather than silently ordering or
coercing. -/
theorem c3_not_sortable_rejection :
    (∀ (fields : List (String × EValue)) (rest : List EValue),
      sortValues (EValue.obj fields :: rest) =
        .error "Object is not a sortable value") ∧
    (∀ (l : List EValue) (f : F64), EValue.float f ∈ l → f.isFinite = false →
      exceptIsError (sortValues l) = true) := by
  constructor
  · intro fields rest
    rfl
  · intro l f hmem hfin
    cases l with
    | nil => exact absurd hmem (List.not_mem_nil _)
    | cons hd tl =>
      rw [sortValues]
      cases hd with
      | obj fields => rfl
      | bool b =>
        rw [show getSortStrategyForType (.bool b) = .ok .bools from rfl, exBind_ok]
        exact runSort_error_of_mem getSortKeyBool hmem rfl
      | integer i =>
        rw [show getSortStrategyForType (.integer i) = .ok .integers from rfl, exBind_ok]
        exact runSort_error_of_mem getSortKeyInteger hmem rfl
      | float g =>
        rw [show getSortStrategyForType (.float g) = .ok .floats from rfl, exBind_ok]
        refine runSort_error_of_mem getSortKeyFloat hmem ?_
        cases f with
        | fin q => simp [F64.isFinite] at hfin
        | nan => rfl
        | inf => rfl
        | ninf => rfl
      | str s =>
        rw [show getSortStrategyForType (.str s) = .ok .strings from rfl, exBind_ok]
        exact runSort_error_of_mem getSortKeyString hmem rfl
      | arr elems =>
        rw [show getSortStrategyForType (.arr elems) = .ok .arrays from rfl, exBind_ok]
        exact runSort_error_of_mem getSortKeyArrayLen hmem rfl

/-- Witness for C3: a NaN key in a one-element column makes the sort
fail. -/
theorem c3_not_sortable_rejection_witness :
    (EValue.float .nan ∈ ([.float .nan] : List EValue)) ∧
    F64.isFinite .nan = false ∧
    exceptIsError (sortValues [.float .nan]) = true :=
  ⟨by simp, rfl,
   c3_not_sortable_rejection.2 [.float .nan] .nan (by simp) rfl⟩
